import Mathlib

/-!
Formal model of the AI-IQ survey application (src/AI-IQ.py).

The numeric domain of the Python program (floats whose values are small
multiples of 0.5 and their ratios) is modelled by the rationals `ℚ`;
`round(x, 2)` is modelled by `round2`, which rounds half-to-even exactly as
Python's `round` does on exact ties.  Stateful CSV persistence is modelled
by explicit state passing: the store is `Option (List Row)` (`none` means
the CSV file does not exist yet), and the wall-clock timestamp is passed in
as an explicit argument.
-/

namespace AIIQ

/-- `SCALE_LABELS` from the source: the five ordinal labels. -/
def SCALE_LABELS : List String :=
  ["Strongly Agree", "Agree", "Neutral", "Disagree", "Strongly Disagree"]

/-- `SCALE_MAPPING` from the source: label to numeric value. -/
def SCALE_MAPPING : List (String × ℚ) :=
  [("Strongly Agree", 5), ("Agree", 4), ("Neutral", 3), ("Disagree", 2),
   ("Strongly Disagree", 1)]

/-- `WEIGHT_MAPPING` from the source: label to signed weight. -/
def WEIGHT_MAPPING : List (String × ℚ) :=
  [("Strongly Agree", 1.5), ("Agree", 1), ("Neutral", 0), ("Disagree", -1.5),
   ("Strongly Disagree", -3)]

/-- The five (numeric value, weight) pairs obtained by pairing
`SCALE_MAPPING` with `WEIGHT_MAPPING` label by label. -/
def scalePairs : List (ℚ × ℚ) :=
  [(5, 1.5), (4, 1), (3, 0), (2, -1.5), (1, -3)]

/-- Python `round` to an integer: round half to even (banker's rounding). -/
def pyRound (x : ℚ) : ℤ :=
  if x - ⌊x⌋ = 1 / 2 then (if ⌊x⌋ % 2 = 0 then ⌊x⌋ else ⌊x⌋ + 1)
  else round x

/-- Python `round(x, 2)`. -/
def round2 (x : ℚ) : ℚ := (pyRound (x * 100) : ℚ) / 100

/-- The accumulator loop of `calculate_weighted_score` (lines 142-148 of the
source): walk the zipped (answer, weight) pairs, adding `a * w` to the first
component when `w > 0` and `a * abs w` to the second when `w < 0`. -/
def posNegSums : List (ℚ × ℚ) → ℚ × ℚ → ℚ × ℚ
  | [], acc => acc
  | (a, w) :: rest, (p, n) =>
    if 0 < w then posNegSums rest (p + a * w, n)
    else if w < 0 then posNegSums rest (p, n + a * |w|)
    else posNegSums rest (p, n)

/-- `calculate_weighted_score` from the source (lines 137-165). -/
def calculate_weighted_score (numeric_answers selected_weights : List ℚ) : ℚ :=
  let s := posNegSums (numeric_answers.zip selected_weights) (0, 0)
  if s.1 + s.2 = 0 then 2.5
  else round2 (max 0 (min (s.1 / (s.1 + s.2) * 5) 5))

/-- `determine_ai_iq_level` from the source (lines 230-244). -/
def determine_ai_iq_level (ai_iq_score : ℚ) : String :=
  if ai_iq_score ≥ 4.5 then "Level 5: Optimizing"
  else if ai_iq_score ≥ 3.5 then "Level 4: Innovating"
  else if ai_iq_score ≥ 2.5 then "Level 3: Managing"
  else if ai_iq_score ≥ 1.5 then "Level 2: Emerging"
  else "Level 1: Initial"

/-- The composite score computed at line 312 of the source:
`ai_iq = round(sum(all_scores) / len(all_scores), 2)`. -/
def ai_iq_of (dimension_scores : List ℚ) : ℚ :=
  round2 (dimension_scores.sum / dimension_scores.length)

/-- The positive contribution of one (answer, weight) pair. -/
def posContrib (p : ℚ × ℚ) : ℚ := if 0 < p.2 then p.1 * p.2 else 0

/-- The negative contribution of one (answer, weight) pair. -/
def negContrib (p : ℚ × ℚ) : ℚ := if p.2 < 0 then p.1 * |p.2| else 0

/-- `positive_sum` of `calculate_weighted_score`, as a sum over the pairs. -/
def positive_sum (la lw : List ℚ) : ℚ := ((la.zip lw).map posContrib).sum

/-- `negative_sum` of `calculate_weighted_score`, as a sum over the pairs. -/
def negative_sum (la lw : List ℚ) : ℚ := ((la.zip lw).map negContrib).sum

/-- The signed-weight dimension score exactly as the specification words it
(partition by sign of the weight via `filter`, neutral 2.5 on zero total,
otherwise the clamped, rounded ratio). -/
def specWeightedScore (answers weights : List ℚ) : ℚ :=
  let pairs := answers.zip weights
  let P := ((pairs.filter fun p => 0 < p.2).map fun p => p.1 * p.2).sum
  let N := ((pairs.filter fun p => p.2 < 0).map fun p => p.1 * |p.2|).sum
  if P + N = 0 then 2.5
  else round2 (max 0 (min (P / (P + N) * 5) 5))

/-- `calculate_weighted_score` applied to a single list of pairs, the form in
which permutation invariance is stated. -/
def scoreOfPairs (l : List (ℚ × ℚ)) : ℚ :=
  calculate_weighted_score (l.map Prod.fst) (l.map Prod.snd)

/-- One stored submission row, at the level of the in-memory DataFrame:
the columns written by `save_response` (RespondentID, name, email, timestamp,
AI_IQ, one score per dimension, one text response per dimension). -/
structure Row where
  rid : ℕ
  name : String
  email : String
  timestamp : String
  aiIq : ℚ
  scores : List ℚ
  texts : List String
deriving DecidableEq

/-- `load_data` (lines 93-107): if the CSV file exists (`some rows`) return
its rows; otherwise return an empty table. -/
def load_data : Option (List Row) → List Row
  | some rows => rows
  | none => []

/-- `save_response` (lines 109-131): load the store, assign
`RespondentID = max existing + 1` (1 when the table is empty), append the new
row and write the store back.  The wall clock (`datetime.now()`) is passed in
as the explicit `timestamp` argument. -/
def save_response (name email : String) (dimension_scores : List ℚ)
    (dimension_texts : List String) (ai_iq : ℚ) (timestamp : String)
    (store : Option (List Row)) : Option (List Row) :=
  let df := load_data store
  let new_id := if df = [] then 1 else ((df.map Row.rid).foldr max 0) + 1
  some (df ++ [⟨new_id, name, email, timestamp, ai_iq, dimension_scores, dimension_texts⟩])

/-- `delete_response` (lines 246-253): keep exactly the rows whose
RespondentID differs from the requested one and write the store back. -/
def delete_response (respondent_id : ℕ) (store : Option (List Row)) :
    Option (List Row) :=
  some ((load_data store).filter fun r => r.rid ≠ respondent_id)

/-- The characters stripped by Python's `str.strip()` with no argument. -/
def isPySpace (c : Char) : Bool :=
  c = ' ' || c = '\t' || c = '\n' || c = '\r' || c = '\x0b' || c = '\x0c'

/-- Python `str.strip()`: drop leading and trailing whitespace. -/
def pyStrip (s : String) : String :=
  String.mk (((s.data.dropWhile isPySpace).reverse.dropWhile isPySpace).reverse)

/-- The submit handler (lines 310-325): compute the composite score and the
maturity level, then persist only when both the stripped name and the
stripped email are non-empty (Python truthiness of `name.strip()`);
otherwise leave the store untouched. -/
def submitSurvey (name email : String) (dimension_scores : List ℚ)
    (dimension_texts : List String) (timestamp : String)
    (store : Option (List Row)) : (ℚ × String) × Option (List Row) :=
  let ai_iq := ai_iq_of dimension_scores
  let level := determine_ai_iq_level ai_iq
  if pyStrip name ≠ "" ∧ pyStrip email ≠ "" then
    ((ai_iq, level),
      save_response name email dimension_scores dimension_texts ai_iq timestamp store)
  else
    ((ai_iq, level), store)

/-!
Serialization model for the round-trip claim.  `save_response` writes the row
through `pandas.to_csv` and `load_data` reads it back through
`pandas.read_csv`, which re-types every cell: a cell equal to one of the
default missing-value tokens (the empty cell, "NA", "NaN", "None", "null",
…) becomes NaN, a cell matching the float syntax (optional sign, a decimal
mantissa in its dot forms, an optional exponent, or a case-insensitive
infinity/nan word) becomes a float, and anything else stays a string.  The
model keeps the file as raw cell strings (`List String`, one per column) and
captures the re-typing cell by cell with `decodeCell`; on the records the
theorems below cover, pandas' column-wise dtype inference agrees with the
cell-wise model, because every column is homogeneous there — all numeric
renderings, or all non-missing non-numeric strings.  Scores are carried in
hundredths (`ℕ` cents), matching "numeric scores to 2 decimals".
-/

theorem pyRound_nonneg {x : ℚ} (hx : 0 ≤ x) : 0 ≤ pyRound x := by
  have h0 : (0 : ℤ) ≤ ⌊x⌋ := Int.le_floor.mpr (by exact_mod_cast hx)
  unfold pyRound
  split_ifs with h1 h2
  · exact h0
  · omega
  · rw [round_eq]
    have h3 : ⌊x⌋ ≤ ⌊x + 1 / 2⌋ :=
      Int.le_floor.mpr (le_trans (Int.floor_le x) (by linarith))
    omega

theorem pyRound_le_ceil (x : ℚ) : pyRound x ≤ ⌈x⌉ := by
  unfold pyRound
  split_ifs with h1 h2
  · exact Int.floor_le_ceil x
  · by_contra hc
    push_neg at hc
    have hcx : (⌈x⌉ : ℚ) ≤ (⌊x⌋ : ℚ) := by exact_mod_cast Int.lt_add_one_iff.mp hc
    have hxle : x ≤ (⌊x⌋ : ℚ) := le_trans (Int.le_ceil x) hcx
    have hfl : (⌊x⌋ : ℚ) ≤ x := Int.floor_le x
    have hz : x - ⌊x⌋ = 0 := by linarith
    rw [hz] at h1
    norm_num at h1
  · rw [round_eq]
    have h3 : x + 1 / 2 < (⌈x⌉ : ℚ) + 1 := by
      have := Int.le_ceil x; linarith
    have h4 : ⌊x + 1 / 2⌋ < ⌈x⌉ + 1 := by
      apply Int.floor_lt.mpr; push_cast; linarith
    omega

theorem round2_nonneg {x : ℚ} (hx : 0 ≤ x) : 0 ≤ round2 x := by
  unfold round2
  have h : (0 : ℤ) ≤ pyRound (x * 100) :=
    pyRound_nonneg (by positivity)
  apply div_nonneg _ (by norm_num : (0 : ℚ) ≤ 100)
  exact_mod_cast h

theorem round2_le_five {x : ℚ} (hx : x ≤ 5) : round2 x ≤ 5 := by
  unfold round2
  have h1 := pyRound_le_ceil (x * 100)
  have h2 : ⌈x * 100⌉ ≤ 500 := Int.ceil_le.mpr (by push_cast; linarith)
  rw [div_le_iff (by norm_num : (0 : ℚ) < 100)]
  have : (pyRound (x * 100) : ℚ) ≤ (500 : ℚ) := by exact_mod_cast le_trans h1 h2
  linarith

theorem posNegSums_eq (l : List (ℚ × ℚ)) : ∀ p n : ℚ,
    posNegSums l (p, n) = (p + (l.map posContrib).sum, n + (l.map negContrib).sum) := by
  induction l with
  | nil => intro p n; simp [posNegSums]
  | cons hd tl ih =>
    intro p n
    obtain ⟨a, w⟩ := hd
    simp only [List.map_cons, List.sum_cons]
    rcases lt_trichotomy w 0 with hw | hw | hw
    · have hw2 : ¬ 0 < w := by linarith
      have hstep : posNegSums ((a, w) :: tl) (p, n) = posNegSums tl (p, n + a * |w|) := by
        simp [posNegSums, if_neg hw2, if_pos hw]
      have e1 : posContrib (a, w) = 0 := by simp [posContrib, hw2]
      have e2 : negContrib (a, w) = a * |w| := by simp [negContrib, hw]
      rw [hstep, ih, e1, e2, Prod.mk.injEq]
      constructor <;> ring
    · subst hw
      have hstep : posNegSums ((a, (0 : ℚ)) :: tl) (p, n) = posNegSums tl (p, n) := by
        simp [posNegSums]
      have e1 : posContrib (a, (0 : ℚ)) = 0 := by simp [posContrib]
      have e2 : negContrib (a, (0 : ℚ)) = 0 := by simp [negContrib]
      rw [hstep, ih, e1, e2, Prod.mk.injEq]
      constructor <;> ring
    · have hw2 : ¬ w < 0 := by linarith
      have hstep : posNegSums ((a, w) :: tl) (p, n) = posNegSums tl (p + a * w, n) := by
        simp [posNegSums, if_pos hw]
      have e1 : posContrib (a, w) = a * w := by simp [posContrib, hw]
      have e2 : negContrib (a, w) = 0 := by simp [negContrib, hw2]
      rw [hstep, ih, e1, e2, Prod.mk.injEq]
      constructor <;> ring

theorem calculate_weighted_score_eq (la lw : List ℚ) :
    calculate_weighted_score la lw =
      if positive_sum la lw + negative_sum la lw = 0 then 2.5
      else round2 (max 0 (min (positive_sum la lw /
        (positive_sum la lw + negative_sum la lw) * 5) 5)) := by
  unfold calculate_weighted_score positive_sum negative_sum
  rw [posNegSums_eq]
  simp

theorem sum_map_posContrib (l : List (ℚ × ℚ)) :
    (l.map posContrib).sum = ((l.filter fun p => 0 < p.2).map fun p => p.1 * p.2).sum := by
  induction l with
  | nil => simp
  | cons hd tl ih =>
    by_cases h : 0 < hd.2
    · simp [posContrib, h, List.filter_cons, ih]
    · simp [posContrib, h, List.filter_cons, ih]

theorem sum_map_negContrib (l : List (ℚ × ℚ)) :
    (l.map negContrib).sum = ((l.filter fun p => p.2 < 0).map fun p => p.1 * |p.2|).sum := by
  induction l with
  | nil => simp
  | cons hd tl ih =>
    by_cases h : hd.2 < 0
    · simp [negContrib, h, List.filter_cons, ih]
    · simp [negContrib, h, List.filter_cons, ih]

/-- C1: for every non-empty list of answers, each a value in {1..5} paired with
its scale weight, `calculate_weighted_score` computes exactly the
specification's signed-weight formula: `positive_sum` over weights > 0,
`negative_sum` over weights < 0 (via the absolute weight), weight 0 ignored;
result 2.5 when the two sums cancel to zero, otherwise the ratio scaled to 5,
clamped to [0, 5] and rounded to 2 decimal places. -/
theorem c1_weighted_score_matches_spec (answers weights : List ℚ)
    (hne : answers ≠ []) (hlen : answers.length = weights.length)
    (hmem : ∀ p ∈ answers.zip weights, p ∈ scalePairs) :
    calculate_weighted_score answers weights = specWeightedScore answers weights := by
  rw [calculate_weighted_score_eq]
  unfold specWeightedScore positive_sum negative_sum
  rw [sum_map_posContrib, sum_map_negContrib]

/-- Witness for C1 at the specification's own example: answers Disagree,
Strongly Disagree, Neutral with their weights. -/
theorem c1_witness :
    (([2, 1, 3] : List ℚ) ≠ [] ∧
      (∀ p ∈ ([2, 1, 3] : List ℚ).zip ([-1.5, -3, 0] : List ℚ), p ∈ scalePairs)) ∧
    calculate_weighted_score [2, 1, 3] [-1.5, -3, 0] =
      specWeightedScore [2, 1, 3] [-1.5, -3, 0] := by
  have hz : ([2, 1, 3] : List ℚ).zip ([-1.5, -3, 0] : List ℚ) =
      [(2, -1.5), (1, -3), (3, 0)] := rfl
  refine ⟨⟨by simp, ?_⟩, ?_⟩
  · intro p hp
    rw [hz] at hp
    fin_cases hp <;> norm_num [scalePairs]
  · apply c1_weighted_score_matches_spec _ _ (by simp) (by simp)
    intro p hp
    rw [hz] at hp
    fin_cases hp <;> norm_num [scalePairs]

/-- C2 counterexample: a dimension with zero recorded answers is not rejected
with an InvalidInput error; `calculate_weighted_score` on empty input returns
the ordinary neutral score 2.5, silently scoring the submission. -/
theorem c2_counterexample : calculate_weighted_score [] [] = 2.5 := by
  norm_num [calculate_weighted_score, posNegSums]

/-- C2 amended: a dimension with zero recorded answers is silently scored as
the neutral value 2.5 (both sums are vacuously 0, so the
`positive_sum + negative_sum == 0` branch fires); no error is raised. -/
theorem c2_empty_answers_score_neutral (answers weights : List ℚ)
    (h : answers = []) : calculate_weighted_score answers weights = 2.5 := by
  subst h
  norm_num [calculate_weighted_score, posNegSums]

/-- Witness for the amended C2. -/
theorem c2_witness :
    (([] : List ℚ) = []) ∧ calculate_weighted_score [] ([1.5] : List ℚ) = 2.5 :=
  ⟨rfl, c2_empty_answers_score_neutral [] [1.5] rfl⟩

/-- C3: the maturity classification is a pure total function of the score with
boundaries inclusive on the lower bound, matching the five-level table. -/
theorem c3_maturity_classification (x : ℚ) :
    (4.5 ≤ x → determine_ai_iq_level x = "Level 5: Optimizing") ∧
    (3.5 ≤ x ∧ x < 4.5 → determine_ai_iq_level x = "Level 4: Innovating") ∧
    (2.5 ≤ x ∧ x < 3.5 → determine_ai_iq_level x = "Level 3: Managing") ∧
    (1.5 ≤ x ∧ x < 2.5 → determine_ai_iq_level x = "Level 2: Emerging") ∧
    (x < 1.5 → determine_ai_iq_level x = "Level 1: Initial") := by
  unfold determine_ai_iq_level
  refine ⟨fun h => ?_, fun h => ?_, fun h => ?_, fun h => ?_, fun h => ?_⟩
  · rw [if_pos (show x ≥ 4.5 from h)]
  · obtain ⟨h1, h2⟩ := h
    rw [if_neg (show ¬ x ≥ 4.5 by simp only [ge_iff_le, not_le]; linarith),
      if_pos (show x ≥ 3.5 from h1)]
  · obtain ⟨h1, h2⟩ := h
    rw [if_neg (show ¬ x ≥ 4.5 by simp only [ge_iff_le, not_le]; linarith),
      if_neg (show ¬ x ≥ 3.5 by simp only [ge_iff_le, not_le]; linarith),
      if_pos (show x ≥ 2.5 from h1)]
  · obtain ⟨h1, h2⟩ := h
    rw [if_neg (show ¬ x ≥ 4.5 by simp only [ge_iff_le, not_le]; linarith),
      if_neg (show ¬ x ≥ 3.5 by simp only [ge_iff_le, not_le]; linarith),
      if_neg (show ¬ x ≥ 2.5 by simp only [ge_iff_le, not_le]; linarith),
      if_pos (show x ≥ 1.5 from h1)]
  · rw [if_neg (show ¬ x ≥ 4.5 by simp only [ge_iff_le, not_le]; linarith),
      if_neg (show ¬ x ≥ 3.5 by simp only [ge_iff_le, not_le]; linarith),
      if_neg (show ¬ x ≥ 2.5 by simp only [ge_iff_le, not_le]; linarith),
      if_neg (show ¬ x ≥ 1.5 by simp only [ge_iff_le, not_le]; linarith)]

/-- Witness for C3 at every boundary and just below it. -/
theorem c3_witness :
    determine_ai_iq_level 4.5 = "Level 5: Optimizing" ∧
    determine_ai_iq_level 3.5 = "Level 4: Innovating" ∧
    determine_ai_iq_level 2.5 = "Level 3: Managing" ∧
    determine_ai_iq_level 1.5 = "Level 2: Emerging" ∧
    determine_ai_iq_level 1.49 = "Level 1: Initial" :=
  ⟨(c3_maturity_classification 4.5).1 (by norm_num),
   (c3_maturity_classification 3.5).2.1 ⟨by norm_num, by norm_num⟩,
   (c3_maturity_classification 2.5).2.2.1 ⟨by norm_num, by norm_num⟩,
   (c3_maturity_classification 1.5).2.2.2.1 ⟨by norm_num, by norm_num⟩,
   (c3_maturity_classification 1.49).2.2.2.2 (by norm_num)⟩

/-- C4: for a non-empty collection of dimension scores each in [0, 5], the
composite `ai_iq` is the arithmetic mean rounded to 2 decimal places, and it
lies in [0, 5]. -/
theorem c4_composite_mean (scores : List ℚ) (hne : scores ≠ [])
    (hb : ∀ s ∈ scores, 0 ≤ s ∧ s ≤ 5) :
    ai_iq_of scores = round2 (scores.sum / scores.length) ∧
    0 ≤ ai_iq_of scores ∧ ai_iq_of scores ≤ 5 := by
  have hlen : 0 < (scores.length : ℚ) := by
    have := List.length_pos.mpr hne
    exact_mod_cast this
  have h0 : 0 ≤ scores.sum := List.sum_nonneg fun s hs => (hb s hs).1
  have h5 : scores.sum ≤ 5 * scores.length := by
    have := List.sum_le_card_nsmul scores 5 fun s hs => (hb s hs).2
    rw [nsmul_eq_mul] at this
    linarith
  have hm0 : 0 ≤ scores.sum / scores.length := div_nonneg h0 (le_of_lt hlen)
  have hm5 : scores.sum / scores.length ≤ 5 := by
    rw [div_le_iff hlen]; linarith
  exact ⟨rfl, round2_nonneg hm0, round2_le_five hm5⟩

/-- Witness for C4. -/
theorem c4_witness :
    (([2.5, 3.5] : List ℚ) ≠ [] ∧ ∀ s ∈ ([2.5, 3.5] : List ℚ), 0 ≤ s ∧ s ≤ 5) ∧
    (ai_iq_of [2.5, 3.5] =
        round2 (([2.5, 3.5] : List ℚ).sum / (([2.5, 3.5] : List ℚ).length : ℚ)) ∧
      0 ≤ ai_iq_of [2.5, 3.5] ∧ ai_iq_of [2.5, 3.5] ≤ 5) := by
  refine ⟨⟨by simp, ?_⟩, c4_composite_mean _ (by simp) ?_⟩ <;>
    · intro s hs
      fin_cases hs <;> norm_num

/-- C9 (implicit): the weighted dimension score is invariant under a
permutation applied identically to the answers and the weights. -/
theorem c9_permutation_invariant (l l₂ : List (ℚ × ℚ)) (h : l.Perm l₂) :
    scoreOfPairs l = scoreOfPairs l₂ := by
  have key : ∀ m : List (ℚ × ℚ), (m.map Prod.fst).zip (m.map Prod.snd) = m := by
    intro m
    rw [List.zip_map']
    simp
  unfold scoreOfPairs
  rw [calculate_weighted_score_eq, calculate_weighted_score_eq]
  unfold positive_sum negative_sum
  rw [key, key, (h.map posContrib).sum_eq, (h.map negContrib).sum_eq]

/-- Witness for C9 on a concrete transposition. -/
theorem c9_witness :
    scoreOfPairs [(1, 2), (3, 4)] = scoreOfPairs [(3, 4), (1, 2)] :=
  c9_permutation_invariant _ _ (List.Perm.swap (3, 4) (1, 2) [])

/-- C10 (implicit): with non-negative answers and arbitrary weights both sums
are non-negative, the clamp is the identity whenever the total is positive,
and the returned score always lies in [0, 5]. -/
theorem c10_clamp_redundant (answers weights : List ℚ)
    (h : ∀ a ∈ answers, 0 ≤ a) :
    0 ≤ positive_sum answers weights ∧ 0 ≤ negative_sum answers weights ∧
    (0 < positive_sum answers weights + negative_sum answers weights →
      max 0 (min (positive_sum answers weights /
          (positive_sum answers weights + negative_sum answers weights) * 5) 5) =
        positive_sum answers weights /
          (positive_sum answers weights + negative_sum answers weights) * 5) ∧
    0 ≤ calculate_weighted_score answers weights ∧
    calculate_weighted_score answers weights ≤ 5 := by
  have hP : 0 ≤ positive_sum answers weights := by
    apply List.sum_nonneg
    intro x hx
    simp only [List.mem_map] at hx
    obtain ⟨⟨a, w⟩, hmem, rfl⟩ := hx
    have ha : 0 ≤ a := h a (List.of_mem_zip hmem).1
    unfold posContrib
    dsimp only
    split_ifs with hw
    · exact mul_nonneg ha (le_of_lt hw)
    · exact le_refl 0
  have hN : 0 ≤ negative_sum answers weights := by
    apply List.sum_nonneg
    intro x hx
    simp only [List.mem_map] at hx
    obtain ⟨⟨a, w⟩, hmem, rfl⟩ := hx
    have ha : 0 ≤ a := h a (List.of_mem_zip hmem).1
    unfold negContrib
    dsimp only
    split_ifs with hw
    · exact mul_nonneg ha (abs_nonneg w)
    · exact le_refl 0
  refine ⟨hP, hN, ?_, ?_⟩
  · intro hs
    have h1 : positive_sum answers weights ≤
        positive_sum answers weights + negative_sum answers weights := by linarith
    have hr0 : 0 ≤ positive_sum answers weights /
        (positive_sum answers weights + negative_sum answers weights) :=
      div_nonneg hP (le_of_lt hs)
    have hr1 : positive_sum answers weights /
        (positive_sum answers weights + negative_sum answers weights) ≤ 1 :=
      (div_le_one hs).mpr h1
    rw [min_eq_left (by linarith), max_eq_right (by linarith)]
  · rw [calculate_weighted_score_eq]
    split_ifs with hz
    · norm_num
    · constructor
      · exact round2_nonneg (le_max_left 0 _)
      · exact round2_le_five (max_le (by norm_num) (min_le_right _ 5))

/-- Witness for C10. -/
theorem c10_witness :
    (∀ a ∈ ([2, 1, 3] : List ℚ), 0 ≤ a) ∧
    (0 ≤ positive_sum [2, 1, 3] [-1.5, -3, 0] ∧
      0 ≤ negative_sum [2, 1, 3] [-1.5, -3, 0] ∧
      (0 < positive_sum [2, 1, 3] [-1.5, -3, 0] + negative_sum [2, 1, 3] [-1.5, -3, 0] →
        max 0 (min (positive_sum [2, 1, 3] [-1.5, -3, 0] /
            (positive_sum [2, 1, 3] [-1.5, -3, 0] +
              negative_sum [2, 1, 3] [-1.5, -3, 0]) * 5) 5) =
          positive_sum [2, 1, 3] [-1.5, -3, 0] /
            (positive_sum [2, 1, 3] [-1.5, -3, 0] +
              negative_sum [2, 1, 3] [-1.5, -3, 0]) * 5) ∧
      0 ≤ calculate_weighted_score [2, 1, 3] [-1.5, -3, 0] ∧
      calculate_weighted_score [2, 1, 3] [-1.5, -3, 0] ≤ 5) := by
  refine ⟨?_, c10_clamp_redundant _ _ ?_⟩ <;>
    · intro a ha
      fin_cases ha <;> norm_num

/-- C5: for every store state, `save_response` assigns the appended row the
RespondentID `1 + max(existing identifiers)` (1 when the store is empty), and
a subsequent `load_data` returns a sequence containing that row. -/
theorem c5_append_assigns_next_id (store : Option (List Row))
    (name email timestamp : String) (dimension_scores : List ℚ)
    (dimension_texts : List String) (ai_iq : ℚ) :
    (⟨if load_data store = [] then 1
        else 1 + ((load_data store).map Row.rid).foldr max 0,
      name, email, timestamp, ai_iq, dimension_scores, dimension_texts⟩ : Row) ∈
      load_data (save_response name email dimension_scores dimension_texts
        ai_iq timestamp store) := by
  unfold save_response load_data
  cases store with
  | none =>
    simp
  | some rows =>
    by_cases h : rows = []
    · subst h; simp
    · simp only [if_neg h, Nat.add_comm]
      exact List.mem_append_right _ (List.mem_singleton.mpr rfl)

/-- C6: after `delete_response id` no loaded row carries `id`, and when no
row carried `id` to begin with the stored sequence is unchanged. -/
theorem c6_delete_removes_id (store : Option (List Row)) (id : ℕ) :
    (∀ r ∈ load_data (delete_response id store), r.rid ≠ id) ∧
    ((∀ r ∈ load_data store, r.rid ≠ id) →
      load_data (delete_response id store) = load_data store) := by
  constructor
  · intro r hr
    unfold delete_response load_data at hr
    have := List.mem_filter.mp hr
    simpa using this.2
  · intro h
    unfold delete_response load_data
    rw [List.filter_eq_self.mpr]
    intro r hr
    simpa using h r hr

/-- Witness for C6: deleting an absent identifier leaves the store unchanged. -/
theorem c6_witness :
    load_data (delete_response 2 (some [⟨1, "a", "b", "t", 2, [], []⟩])) =
      load_data (some [⟨1, "a", "b", "t", 2, [], []⟩]) :=
  (c6_delete_removes_id (some [⟨1, "a", "b", "t", 2, [], []⟩]) 2).2 (by
    intro r hr
    simp only [load_data, List.mem_singleton] at hr
    subst hr
    decide)

/-- C7: when the stripped name or the stripped email is empty, the submit
handler still produces the scored results (composite score and maturity
level) but leaves the persistent store untouched. -/
theorem c7_blank_identity_skips_persistence (name email : String)
    (dimension_scores : List ℚ) (dimension_texts : List String)
    (timestamp : String) (store : Option (List Row))
    (h : pyStrip name = "" ∨ pyStrip email = "") :
    submitSurvey name email dimension_scores dimension_texts timestamp store =
      ((ai_iq_of dimension_scores,
        determine_ai_iq_level (ai_iq_of dimension_scores)), store) := by
  unfold submitSurvey
  rw [if_neg]
  rcases h with h | h <;> simp [h]

/-- Witness for C7: a whitespace-only name skips persistence. -/
theorem c7_witness :
    (pyStrip "  " = "" ∨ pyStrip "x@y" = "") ∧
    submitSurvey "  " "x@y" [2.5] ["t"] "2025-01-01 00:00:00" (some []) =
      ((ai_iq_of [2.5], determine_ai_iq_level (ai_iq_of [2.5])), some []) :=
  ⟨Or.inl (by decide),
   c7_blank_identity_skips_persistence "  " "x@y" [2.5] ["t"]
     "2025-01-01 00:00:00" (some []) (Or.inl (by decide))⟩

end AIIQ
